import Mathlib

/-!
Shallow embedding of the resume-screening core of this repository:
`app/services/parser.py` (resume text parsing) and `app/services/matcher.py`
(heuristic scoring, LLM fallback contract, shortlisting).

Modelling conventions:
* Python `float` is modelled by `ℚ` (exact rational arithmetic; IEEE
  rounding noise and the specials `inf`/`nan` are outside the model).
* Python strings are modelled by `String`, with ASCII semantics for
  case-mapping, whitespace and the `\d`/`\s` regex classes.
* Python dicts are modelled by insertion-ordered association lists.
* Regular-expression searches are modelled by explicit scanners that
  reproduce the leftmost-match, greedy-with-backtracking behaviour of the
  specific patterns used by the source.
-/

namespace ResumeApp

/-! ### Python string primitives (ASCII model) -/

/-- Whitespace as recognised by Python `str.strip`, `str.split()` and the
regex class `\s` (ASCII part): space, tab, newline, carriage return,
vertical tab, form feed. -/
def isPySpace (c : Char) : Bool :=
  c = ' ' || c = '\t' || c = '\n' || c = '\r' || c = Char.ofNat 11 || c = Char.ofNat 12

/-- Python `str.strip()` on a character list. -/
def pyStripList (cs : List Char) : List Char :=
  ((cs.dropWhile isPySpace).reverse.dropWhile isPySpace).reverse

/-- Python `str.strip()`. -/
def pyStrip (s : String) : String := ⟨pyStripList s.toList⟩

/-- Python `str.lower()` (ASCII case mapping). -/
def pyLower (s : String) : String := ⟨s.toList.map Char.toLower⟩

/-- Split a character list at each newline (the accumulator holds the
current line reversed). -/
def splitNlAux : List Char → List Char → List (List Char)
  | [], acc => [acc.reverse]
  | c :: rest, acc =>
    if c = '\n' then acc.reverse :: splitNlAux rest []
    else splitNlAux rest (c :: acc)

/-- Python `str.splitlines()` after carriage returns have been removed:
the only remaining line terminator is the newline.  (A trailing newline
produces a final empty line; every consumer in the source skips blank
lines, so this coincides with `splitlines` there.) -/
def pySplitLines (s : String) : List String :=
  (splitNlAux s.toList []).map fun cs => ⟨cs⟩

/-- Tokenizer behind Python `str.split()` with no separator. -/
def splitWsAux : List Char → List Char → List (List Char)
  | [], acc => if acc.isEmpty then [] else [acc.reverse]
  | c :: rest, acc =>
    if isPySpace c then
      if acc.isEmpty then splitWsAux rest []
      else acc.reverse :: splitWsAux rest []
    else splitWsAux rest (c :: acc)

/-- Python `str.split()` with no separator: whitespace-delimited tokens,
empty tokens dropped. -/
def pySplitWs (s : String) : List String :=
  (splitWsAux s.toList []).map fun cs => ⟨cs⟩

/-- Substring occurrence test on character lists. -/
def containsList (needle : List Char) : List Char → Bool
  | [] => needle.isEmpty
  | c :: rest => needle.isPrefixOf (c :: rest) || containsList needle rest

/-- Python substring test `needle in hay`. -/
def pyContains (hay needle : String) : Bool :=
  containsList needle.toList hay.toList

/-- Python `str.rstrip(":")`: remove every trailing colon. -/
def rstripColons (s : String) : String :=
  ⟨(s.toList.reverse.dropWhile (fun c => c = ':')).reverse⟩

/-- Python `text.replace("\r", "")`. -/
def stripCR (s : String) : String := ⟨s.toList.filter (fun c => c ≠ '\r')⟩

/-- Numeric value of a digit string (most significant first). -/
def digitsVal (ds : List Char) : ℕ :=
  ds.foldl (fun n c => 10 * n + (c.toNat - 48)) 0

/-- Value of a matched decimal literal `\d+(\.\d+)?`. -/
def parseDecimal (cs : List Char) : ℚ :=
  let ip := cs.takeWhile Char.isDigit
  match cs.drop ip.length with
  | '.' :: f => (digitsVal ip : ℚ) + (digitsVal f : ℚ) / (10 : ℚ) ^ f.length
  | _ => (digitsVal ip : ℚ)

/-! ### Rounding and float formatting (CPython semantics over exact rationals) -/

/-- Round to the nearest integer, ties to even: the rounding used by
CPython `round` and `format` on the exact value. -/
def rhe (q : ℚ) : ℤ :=
  let f := ⌊q⌋
  let r := q - (f : ℚ)
  if r < 1/2 then f
  else if 1/2 < r then f + 1
  else if f % 2 = 0 then f else f + 1

/-- Python `round(x, 2)` on the exact rational value. -/
def pyRound2 (q : ℚ) : ℚ := (rhe (q * 100) : ℚ) / 100

/-- Python `f"{x:.0f}"` on the exact rational value. -/
def fmtF0 (q : ℚ) : String :=
  let n := rhe q
  (if n < 0 then "-" else "") ++ toString n.natAbs

/-- Python `f"{x:.1f}"` on the exact rational value. -/
def fmtF1 (q : ℚ) : String :=
  let n := rhe (10 * q)
  (if n < 0 then "-" else "") ++ toString (n.natAbs / 10) ++ "." ++ toString (n.natAbs % 10)

/-- Python `f"{x:g}"` for the nonnegative decimal magnitudes produced by the
experience extractor: integer part, then up to `6 - (integer digits)`
fractional digits with trailing zeros removed; the scientific-notation
regime of `%g` is not modelled (no claim inspects this string). -/
def fmtG (q : ℚ) : String :=
  let sign := if q < 0 then "-" else ""
  let a := |q|
  let ip := (⌊a⌋).toNat
  let ipDigits := (toString ip).length
  let prec := 6 - min 6 ipDigits
  let scaled := (rhe (a * (10 : ℚ) ^ prec)).natAbs
  let fracDigits := scaled % 10 ^ prec
  if fracDigits = 0 then sign ++ toString (scaled / 10 ^ prec)
  else
    let fracStr := (List.replicate (prec - (toString fracDigits).length) '0').asString
        ++ toString fracDigits
    let trimmed := ⟨(fracStr.toList.reverse.dropWhile (fun c => c = '0')).reverse⟩
    sign ++ toString (scaled / 10 ^ prec) ++ "." ++ trimmed

/-! ### Regex scanners

Each Python regex used by the source is modelled by an explicit matcher
for that pattern.  `scanFirst` models `re.search`: try a match at each
position from the left, returning the first success. -/

/-- Leftmost-match search: apply the position matcher at every suffix. -/
def scanFirst (f : List Char → Option α) : List Char → Option α
  | [] => f []
  | c :: rest =>
    match f (c :: rest) with
    | some r => some r
    | none => scanFirst f rest

/-- Case-insensitive literal match at the head; `pat` is given lowercase.
Returns the remaining input on success. -/
def icLit : List Char → List Char → Option (List Char)
  | [], rest => some rest
  | _ :: _, [] => none
  | p :: ps, c :: rest => if c.toLower = p then icLit ps rest else none

/-- Head match of `\d+(?:\.\d+)?` (the number group shared by both
experience regexes): returns the matched digits (with fraction) and the
remaining input. -/
def numMatch (cs : List Char) : Option (List Char × List Char) :=
  match cs.takeWhile Char.isDigit with
  | [] => none
  | d0 :: ds =>
    match cs.drop (d0 :: ds).length with
    | '.' :: t =>
      match t.takeWhile Char.isDigit with
      | [] => some (d0 :: ds, '.' :: t)
      | f0 :: fs => some ((d0 :: ds) ++ '.' :: f0 :: fs, t.drop (f0 :: fs).length)
    | rest => some (d0 :: ds, rest)

/-- The `\s*(?:\+\s*)?` part between the number and the unit.  The unit
starts with a letter, so the greedy skip is exact. -/
def skipSpacePlus (cs : List Char) : List Char :=
  match cs.dropWhile isPySpace with
  | '+' :: t => t.dropWhile isPySpace
  | rest => rest

/-- Head match of `(?:years?|yrs?)` (case-insensitive), trying the
alternatives in the backtracking order of the regex engine; returns the
remaining input. -/
def unitMatch (cs : List Char) : Option (List Char) :=
  match icLit "years".toList cs with
  | some r => some r
  | none =>
    match icLit "year".toList cs with
    | some r => some r
    | none =>
      match icLit "yrs".toList cs with
      | some r => some r
      | none => icLit "yr".toList cs

/-- Head match of `(?:years?|yrs?) of experience` (case-insensitive),
with the unit alternatives backtracked against the literal tail. -/
def unitOfExpMatch (cs : List Char) : Option (List Char) :=
  (["years", "year", "yrs", "yr"].findSome? fun u =>
    (icLit u.toList cs).bind fun r => icLit " of experience".toList r)

/-- Head match of the full `_EXPERIENCE_YEARS_PATTERN`
`(\d+(?:\.\d+)?)\s*(?:\+\s*)?(?:years?|yrs?)`: returns group 1 and the
remaining input after the whole match. -/
def expMatchAt (cs : List Char) : Option (List Char × List Char) :=
  (numMatch cs).bind fun p =>
    (unitMatch (skipSpacePlus p.2)).map fun rest => (p.1, rest)

theorem icLit_length_le : ∀ pat cs r, icLit pat cs = some r → r.length ≤ cs.length := by
  intro pat
  induction pat with
  | nil => intro cs r h; simp [icLit] at h; simp [h]
  | cons p ps ih =>
    intro cs r h
    match cs with
    | [] => simp [icLit] at h
    | c :: rest =>
      simp only [icLit] at h
      split at h
      · exact le_trans (ih rest r h) (Nat.le_succ _)
      · exact absurd h (by simp)

theorem unitMatch_length_le {cs r : List Char} (h : unitMatch cs = some r) :
    r.length ≤ cs.length := by
  unfold unitMatch at h
  repeat' split at h
  all_goals
    first
    | (injection h with h2; subst h2; apply icLit_length_le <;> assumption)
    | exact icLit_length_le _ _ _ h

theorem skipSpacePlus_length_le (cs : List Char) :
    (skipSpacePlus cs).length ≤ cs.length := by
  unfold skipSpacePlus
  have h1 : (cs.dropWhile isPySpace).length ≤ cs.length :=
    (List.dropWhile_sublist _).length_le
  split
  · rename_i t heq
    have h2 : (t.dropWhile isPySpace).length ≤ t.length :=
      (List.dropWhile_sublist _).length_le
    have h3 : t.length + 1 = (cs.dropWhile isPySpace).length := by rw [heq]; rfl
    omega
  · assumption

theorem numMatch_length_lt {cs g r : List Char} (h : numMatch cs = some (g, r)) :
    r.length < cs.length := by
  unfold numMatch at h
  split at h
  · exact absurd h (by simp)
  · rename_i d0 ds hne
    have hdl : (d0 :: ds).length ≤ cs.length := by
      rw [← hne]; exact (List.takeWhile_sublist _).length_le
    have hd0 : 1 ≤ (d0 :: ds).length := by simp
    split at h
    · rename_i t heq
      have hdrop : (cs.drop (d0 :: ds).length).length = cs.length - (d0 :: ds).length := by
        simp
      have htl : t.length + 1 = cs.length - (d0 :: ds).length := by
        rw [← hdrop, heq]; rfl
      split at h
      · simp only [Option.some.injEq, Prod.mk.injEq] at h
        obtain ⟨h1, h2⟩ := h
        subst h2
        simp only [List.length_cons]
        omega
      · simp only [Option.some.injEq, Prod.mk.injEq] at h
        obtain ⟨h1, h2⟩ := h
        subst h2
        simp only [List.length_drop]
        omega
    · simp only [Option.some.injEq, Prod.mk.injEq] at h
      obtain ⟨h1, h2⟩ := h
      subst h2
      have : (cs.drop (d0 :: ds).length).length = cs.length - (d0 :: ds).length := by simp
      omega

theorem expMatchAt_length_lt {cs g r : List Char} (h : expMatchAt cs = some (g, r)) :
    r.length < cs.length := by
  unfold expMatchAt at h
  cases hn : numMatch cs with
  | none => rw [hn] at h; simp at h
  | some p =>
    obtain ⟨p1, p2⟩ := p
    rw [hn] at h
    simp only [Option.some_bind, Option.map_eq_some'] at h
    obtain ⟨rest, hu, hp⟩ := h
    have h1 := numMatch_length_lt hn
    have h2 := skipSpacePlus_length_le p2
    have h3 := unitMatch_length_le hu
    have hr : r = rest := by cases hp; rfl
    subst hr
    omega

/-- Fuelled core of `expFindAll` (structural recursion on the fuel so
that the scanner evaluates by kernel reduction; `expMatchAt_length_lt`
shows a fuel of `cs.length` never runs out). -/
def expFindAllFuel : ℕ → List Char → List (List Char)
  | 0, _ => []
  | _ + 1, [] => []
  | fuel + 1, c :: rest =>
    match expMatchAt (c :: rest) with
    | some (g, r) => g :: expFindAllFuel fuel r
    | none => expFindAllFuel fuel rest

/-- `findall` of `_EXPERIENCE_YEARS_PATTERN`: non-overlapping scan from
the left, resuming after each match, advancing one character after each
failure; yields the captured number group of each match. -/
def expFindAll (cs : List Char) : List (List Char) :=
  expFindAllFuel cs.length cs

/-- The fuel bound is exact: with at least `cs.length` fuel the scan is
independent of the fuel, so `expFindAll` is the fixpoint semantics of
the `findall` loop. -/
theorem expFindAllFuel_eq_of_le :
    ∀ (f g : ℕ) (cs : List Char), cs.length ≤ f → cs.length ≤ g →
      expFindAllFuel f cs = expFindAllFuel g cs := by
  intro f
  induction f with
  | zero =>
    intro g cs hf _
    have : cs = [] := List.length_eq_zero.mp (Nat.le_zero.mp hf)
    subst this
    cases g <;> rfl
  | succ f ih =>
    intro g cs hf hg
    cases cs with
    | nil => cases g <;> rfl
    | cons c rest =>
      cases g with
      | zero => simp at hg
      | succ g =>
        show (match expMatchAt (c :: rest) with
          | some (g2, r) => g2 :: expFindAllFuel f r
          | none => expFindAllFuel f rest) =
          (match expMatchAt (c :: rest) with
          | some (g2, r) => g2 :: expFindAllFuel g r
          | none => expFindAllFuel g rest)
        cases hm : expMatchAt (c :: rest) with
        | some p =>
          obtain ⟨g2, r⟩ := p
          have hlt := expMatchAt_length_lt hm
          simp only [List.length_cons] at hlt hf hg
          show g2 :: expFindAllFuel f r = g2 :: expFindAllFuel g r
          rw [ih g r (by omega) (by omega)]
        | none =>
          simp only [List.length_cons] at hf hg
          show expFindAllFuel f rest = expFindAllFuel g rest
          rw [ih g rest (by omega) (by omega)]

/-! ### Email and phone patterns (`_EMAIL_PATTERN`, `_PHONE_PATTERN`) -/

/-- The regex class `[A-Za-z0-9._%+-]` (local part of `_EMAIL_PATTERN`). -/
def emailLocalChar (c : Char) : Bool :=
  c.isAlphanum || c = '.' || c = '_' || c = '%' || c = '+' || c = '-'

/-- The regex class `[A-Za-z0-9.-]` (domain part of `_EMAIL_PATTERN`). -/
def emailDomChar (c : Char) : Bool :=
  c.isAlphanum || c = '.' || c = '-'

/-- Greedy match of `[A-Za-z0-9.-]+\.[A-Za-z]{2,}` at the head: the
domain run is maximal, then the engine backtracks to the rightmost dot
that is followed by at least two letters; the letter group is greedy.
Returns the matched characters. -/
def emailDomMatch (cs : List Char) : Option (List Char) :=
  let r := cs.takeWhile emailDomChar
  (List.range r.length).reverse.findSome? fun k =>
    if 1 ≤ k then
      match r.drop k with
      | '.' :: t =>
        match t.takeWhile Char.isAlpha with
        | a :: b :: rest => some (r.take k ++ '.' :: a :: b :: rest)
        | _ => none
      | _ => none
    else none

/-- Match of the whole `_EMAIL_PATTERN` at the head (the semantics of
`re.match`): a nonempty maximal local run, a literal `@`, then the
domain.  Returns the matched characters. -/
def emailMatchAt (cs : List Char) : Option (List Char) :=
  match cs.takeWhile emailLocalChar with
  | [] => none
  | l0 :: ls =>
    match cs.drop (l0 :: ls).length with
    | '@' :: rest => (emailDomMatch rest).map fun d => (l0 :: ls) ++ '@' :: d
    | _ => none

/-- `_EMAIL_PATTERN.search`: leftmost match in the text. -/
def emailSearch (s : String) : Option String :=
  (scanFirst emailMatchAt s.toList).map fun cs => ⟨cs⟩

/-- Truthiness of `_EMAIL_PATTERN.match(s)`: does the pattern match at
the start of `s`. -/
def emailMatchBool (s : String) : Bool :=
  (emailMatchAt s.toList).isSome

/-- The regex class `[\d\s().-]` (body of `_PHONE_PATTERN`). -/
def phoneBodyChar (c : Char) : Bool :=
  c.isDigit || isPySpace c || c = '(' || c = ')' || c = '.' || c = '-'

/-- Match of `_PHONE_PATTERN` `\+?\d[\d\s().-]{7,}\d` at the head: an
optional plus, a digit, then a maximal body run backtracked to the last
digit at offset at least 7.  Returns the matched characters. -/
def phoneMatchAt (cs : List Char) : Option (List Char) :=
  let pd : List Char × List Char :=
    match cs with
    | '+' :: t => (['+'], t)
    | _ => ([], cs)
  match pd.2 with
  | [] => none
  | d :: t =>
    if d.isDigit then
      let r := t.takeWhile phoneBodyChar
      (List.range r.length).reverse.findSome? fun k =>
        match r.drop k with
        | e :: _ =>
          if 7 ≤ k && e.isDigit then some (pd.1 ++ d :: (r.take k ++ [e])) else none
        | [] => none
    else none

/-- `_PHONE_PATTERN.search`: leftmost match in the text. -/
def phoneSearch (s : String) : Option String :=
  (scanFirst phoneMatchAt s.toList).map fun cs => ⟨cs⟩

/-- `_YEAR_PATTERN.findall` for `(\d{4})`: non-overlapping scan, skipping
past each four-digit match, advancing one character otherwise. -/
def findYears : List Char → List (List Char)
  | a :: b :: c :: d :: rest =>
    if a.isDigit && b.isDigit && c.isDigit && d.isDigit
    then [a, b, c, d] :: findYears rest
    else findYears (b :: c :: d :: rest)
  | _ => []

/-! ### Data model (`parser.py`) -/

/-- JSON-like runtime values, modelling the `object`-typed data that the
persistence layer hands back to `ParsedResume.from_storage`.  `bool` is
kept distinct from `num` because Python treats `bool` as a numeric type
in `isinstance` checks. -/
inductive JValue where
  | null
  | bool (b : Bool)
  | num (q : ℚ)
  | str (s : String)
  | arr (l : List JValue)
  | obj (l : List (String × JValue))

/-- One education entry as built by `_extract_education`:
`{"summary": ..., "years"?: ...}`. -/
structure EduEntry where
  summary : String
  years : Option String
deriving DecidableEq

def EduEntry.toJ (e : EduEntry) : JValue :=
  .obj (("summary", .str e.summary) ::
    (match e.years with
     | some y => [("years", .str y)]
     | none => []))

/-- The `ParsedResume` dataclass.  `sections` is insertion-ordered and
heterogeneous (string bodies plus the synthetic `section_order` list),
so its values are `JValue`s; `education_entries` likewise holds the
serialized entry dicts, which `from_storage` passes through unchanged. -/
structure ParsedResume where
  raw_text : String
  candidate_name : Option String := none
  contact_email : Option String := none
  contact_phone : Option String := none
  skills : List String := []
  experience_years : Option ℚ := none
  education_entries : List JValue := []
  sections : List (String × JValue) := []

/-- Lookup in an insertion-ordered dict model: `d.get(k)`. -/
def alistGet (m : List (String × JValue)) (k : String) : Option JValue :=
  (m.find? fun kv => kv.1 == k).map fun kv => kv.2

/-- Dict assignment `d[k] = v`: updates in place, else appends. -/
def alistSet (m : List (String × JValue)) (k : String) (v : JValue) :
    List (String × JValue) :=
  if m.any fun kv => kv.1 == k then
    m.map fun kv => if kv.1 == k then (kv.1, v) else kv
  else m ++ [(k, v)]

/-! ### String ordering (Python `sorted` on strings) -/

/-- Lexicographic order on character lists by code point, as used by
Python `sorted` on strings. -/
def charsLe : List Char → List Char → Bool
  | [], _ => true
  | _ :: _, [] => false
  | a :: as, b :: bs => if a = b then charsLe as bs else decide (a.val < b.val)

/-- Python string comparison `a <= b`. -/
def strLe (a b : String) : Bool := charsLe a.toList b.toList

/-- Python `sorted` on strings.  CPython uses a stable sort; on strings
the comparison is a linear order, so the result is the unique sorted
permutation, modelled by insertion sort (whose structural recursion the
kernel can evaluate). -/
def pySortStrs (l : List String) : List String :=
  l.insertionSort fun a b => strLe a b = true

/-! ### Section segmentation (`_split_into_sections`) -/

/-- The `_SECTION_HEADERS` table, in source order. -/
def _SECTION_HEADERS : List (String × List String) :=
  [("experience", ["experience", "work experience", "employment", "professional experience"]),
   ("education", ["education", "academic", "academics", "qualifications"]),
   ("skills", ["skills", "technical skills", "core competencies"]),
   ("projects", ["projects", "notable projects"])]

/-- Header detection on the trimmed, lower-cased line: a synonym hit
either verbatim or after `rstrip(":")`. -/
def headerOf (normalized : String) : Option String :=
  (_SECTION_HEADERS.find? fun kv =>
    kv.2.contains normalized || kv.2.contains (rstripColons normalized)).map fun kv => kv.1

/-- Presence test on the list-of-lines dict built during segmentation. -/
def hasKeyL (m : List (String × List String)) (k : String) : Bool :=
  m.any fun kv => kv.1 == k

/-- `sections.setdefault(current, []).append(stripped)`. -/
def appendLineL (m : List (String × List String)) (k : String) (v : String) :
    List (String × List String) :=
  if hasKeyL m k then
    m.map fun kv => if kv.1 == k then (kv.1, kv.2 ++ [v]) else kv
  else m ++ [(k, [v])]

/-- The loop state of `_split_into_sections`. -/
structure SplitAcc where
  sections : List (String × List String)
  current : String
  order : List String

/-- One iteration of the `_split_into_sections` loop. -/
def splitLine (acc : SplitAcc) (line : String) : SplitAcc :=
  let stripped := pyStrip line
  if stripped = "" then acc
  else
    match headerOf (pyLower stripped) with
    | some key =>
      if hasKeyL acc.sections key then { acc with current := key }
      else
        { sections := acc.sections ++ [(key, [])]
          current := key
          order := acc.order ++ [key] }
    | none =>
      { acc with
        sections := appendLineL acc.sections acc.current stripped
        order := if acc.order.contains acc.current then acc.order
                 else acc.order ++ [acc.current] }

/-- `_split_into_sections`: returns the newline-joined section map and
the first-seen order list. -/
def _split_into_sections (text : String) : List (String × String) × List String :=
  let acc := (pySplitLines text).foldl splitLine ⟨[], "summary", []⟩
  (acc.sections.map fun kv => (kv.1, String.intercalate "\n" kv.2), acc.order)

/-! ### Field extractors -/

/-- The `_infer_name` loop over the lines. -/
def inferNameGo : List String → Option String
  | [] => none
  | line :: rest =>
    let stripped := pyStrip line
    if stripped = "" then inferNameGo rest
    else if emailMatchBool (pyLower stripped) then inferNameGo rest
    else if pyContains (pyLower stripped) "resume"
         || pyContains (pyLower stripped) "curriculum vitae" then inferNameGo rest
    else if (pySplitWs stripped).length ≤ 5 then some stripped
    else inferNameGo rest

/-- `_infer_name`. -/
def _infer_name (text : String) : Option String :=
  inferNameGo (pySplitLines text)

/-- The `_SKILL_KEYWORDS` vocabulary, in source order. -/
def _SKILL_KEYWORDS : List String :=
  ["python", "java", "javascript", "typescript", "c++", "c#", "go", "sql",
   "nosql", "mysql", "postgresql", "mongodb", "redis", "aws", "azure", "gcp",
   "docker", "kubernetes", "terraform", "linux", "git", "html", "css",
   "react", "angular", "node", "fastapi", "django", "flask", "pandas",
   "numpy", "spark", "hadoop", "machine learning", "deep learning", "nlp",
   "data analysis", "data engineering", "scala", "rust", "php", "ruby"]

/-- `_match_skills`: vocabulary entries occurring as substrings of the
lower-cased text, sorted. -/
def _match_skills (text : String) : List String :=
  pySortStrs (_SKILL_KEYWORDS.filter fun sk => pyContains (pyLower text) sk)

/-- `_estimate_experience_years`: the maximum of all matched
`N years/yrs` numbers, `none` when there is no match. -/
def _estimate_experience_years (text : String) : Option ℚ :=
  match expFindAll text.toList with
  | [] => none
  | m :: ms => some ((ms.map parseDecimal).foldl max (parseDecimal m))

/-- Years rendering of `_extract_education`:
`"-".join(sorted(set(years)))`. -/
def joinYears (ys : List (List Char)) : String :=
  String.intercalate "-" (pySortStrs (ys.map fun cs => (⟨cs⟩ : String)).dedup)

/-- Split a character list at each double newline (the accumulator holds
the current block reversed); models Python `split("\n\n")`. -/
def splitNNAux : List Char → List Char → List (List Char)
  | [], acc => [acc.reverse]
  | '\n' :: '\n' :: rest, acc => acc.reverse :: splitNNAux rest []
  | c :: rest, acc => splitNNAux rest (c :: acc)

/-- Python `education_section.split("\n\n")`. -/
def splitBlocks (s : String) : List String :=
  (splitNNAux s.toList []).map fun cs => ⟨cs⟩

/-- `_extract_education`: split the education text on blank lines; each
non-empty trimmed block yields a summary plus, when the block contains
four-digit matches, the deduplicated sorted hyphen-joined years. -/
def _extract_education (education_section : String) : List EduEntry :=
  if education_section = "" then []
  else
    (splitBlocks education_section).filterMap fun block =>
      let b := pyStrip block
      if b = "" then none
      else
        match findYears b.toList with
        | [] => some ⟨b, none⟩
        | y :: ys => some ⟨b, some (joinYears (y :: ys))⟩

/-- `_estimate_required_experience` match at one position:
`(\d+(?:\.\d+)?)\s*(?:\+\s*)?(?:years?|yrs?) of experience`,
returning group 1. -/
def reqExpMatchAt (cs : List Char) : Option (List Char) :=
  (numMatch cs).bind fun p =>
    (unitOfExpMatch (skipSpacePlus p.2)).map fun _ => p.1

/-- `_estimate_required_experience`: first match in the job description,
else the default of 3 years. -/
def _estimate_required_experience (text : String) : ℚ :=
  match scanFirst reqExpMatchAt text.toList with
  | some num => parseDecimal num
  | none => 3

/-! ### `parse_resume_text` -/

/-- The `skills` backfill step: `if "skills" not in sections and skills:
sections["skills"] = ", ".join(skills)` (the key is new, so assignment
appends). -/
def backfillSkills (secJ : List (String × JValue)) (skills : List String) :
    List (String × JValue) :=
  if !(secJ.any fun kv => kv.1 == "skills") && !skills.isEmpty then
    secJ ++ [("skills", .str (String.intercalate ", " skills))]
  else secJ

/-- The `experience` backfill step, symmetric to the skills one, with
the `%g`-formatted estimated years. -/
def backfillExperience (secJ : List (String × JValue)) (experience_years : Option ℚ) :
    List (String × JValue) :=
  if !(secJ.any fun kv => kv.1 == "experience") && experience_years.isSome then
    secJ ++ [("experience",
      .str ("Estimated " ++ fmtG (experience_years.getD 0) ++ " years of experience"))]
  else secJ

/-- The section-map finalization at the end of `parse_resume_text`: the
split sections as string values, the `skills` and `experience` backfill
steps, and the `section_order` assignment, in source order. -/
def buildSections (sections : List (String × String)) (order : List String)
    (skills : List String) (experience_years : Option ℚ) : List (String × JValue) :=
  alistSet
    (backfillExperience
      (backfillSkills (sections.map fun kv => (kv.1, .str kv.2)) skills)
      experience_years)
    "section_order" (.arr (order.map .str))

/-- `parse_resume_text`: normalization, segmentation, extraction and the
backfill steps, in source order. -/
def parse_resume_text (text : String) : ParsedResume :=
  let normalized := stripCR text
  let so := _split_into_sections normalized
  let sections := so.1
  let order := so.2
  let email := emailSearch normalized
  let phone := phoneSearch normalized
  let candidate_name := _infer_name normalized
  let skills := pySortStrs (_match_skills normalized)
  let experience_years := _estimate_experience_years normalized
  let education_entries :=
    _extract_education (((sections.find? fun kv => kv.1 == "education").map
      fun kv => kv.2).getD "")
  { raw_text := normalized
    candidate_name := candidate_name
    contact_email := email
    contact_phone := phone
    skills := skills
    experience_years := experience_years
    education_entries := (education_entries.map EduEntry.toJ)
    sections := buildSections sections order skills experience_years }

/-! ### Persistence round trip (`as_dict` / `from_storage`) -/

def optStrJ : Option String → JValue
  | some s => .str s
  | none => .null

/-- `ParsedResume.as_dict`, with the keys in source order. -/
def ParsedResume.as_dict (p : ParsedResume) : List (String × JValue) :=
  [("candidate_name", optStrJ p.candidate_name),
   ("contact_email", optStrJ p.contact_email),
   ("contact_phone", optStrJ p.contact_phone),
   ("skills", .arr (p.skills.map .str)),
   ("experience_years",
     match p.experience_years with
     | some q => .num q
     | none => .null),
   ("education_entries", .arr p.education_entries),
   ("sections", .obj p.sections)]

/-- Python `float(s)` on a string: optional surrounding whitespace, an
optional sign, a decimal mantissa, and an optional exponent.  `inf`,
`nan` and digit-group underscores are outside the rational model.
Returns `none` exactly where `float(s)` raises `ValueError` on this
grammar. -/
def parsePyFloat (s : String) : Option ℚ :=
  let cs := pyStripList s.toList
  let sp : ℚ × List Char :=
    match cs with
    | '+' :: t => (1, t)
    | '-' :: t => (-1, t)
    | _ => (1, cs)
  let ip := sp.2.takeWhile Char.isDigit
  let afterInt := sp.2.drop ip.length
  let mant : Option (ℚ × List Char) :=
    match afterInt with
    | '.' :: t =>
      let fp := t.takeWhile Char.isDigit
      if ip.isEmpty && fp.isEmpty then none
      else some ((digitsVal ip : ℚ) + (digitsVal fp : ℚ) / (10 : ℚ) ^ fp.length,
        t.drop fp.length)
    | _ => if ip.isEmpty then none else some ((digitsVal ip : ℚ), afterInt)
  mant.bind fun mr =>
    match mr.2 with
    | [] => some (sp.1 * mr.1)
    | e :: t =>
      if e = 'e' || e = 'E' then
        let esp : ℤ × List Char :=
          match t with
          | '+' :: u => (1, u)
          | '-' :: u => (-1, u)
          | _ => (1, t)
        let ed := esp.2.takeWhile Char.isDigit
        if ed.isEmpty then none
        else if (esp.2.drop ed.length).isEmpty then
          some (sp.1 * mr.1 * (10 : ℚ) ^ (esp.1 * (digitsVal ed : ℤ)))
        else none
      else none

/-- `ParsedResume.from_storage`: rebuild from persisted data with
defensive type checks; wrong-typed values degrade to absent.  Python
copies `skills` verbatim; in this typed model its elements are read back
as the strings `as_dict` stores (matching `isinstance(x, list)` on the
container, which is the only check the source makes). -/
def ParsedResume.from_storage (raw_text : String) (data : List (String × JValue)) :
    ParsedResume :=
  { raw_text := raw_text
    candidate_name :=
      match alistGet data "candidate_name" with
      | some (.str s) => some s
      | _ => none
    contact_email :=
      match alistGet data "contact_email" with
      | some (.str s) => some s
      | _ => none
    contact_phone :=
      match alistGet data "contact_phone" with
      | some (.str s) => some s
      | _ => none
    skills :=
      match alistGet data "skills" with
      | some (.arr l) =>
        l.filterMap fun v =>
          match v with
          | .str s => some s
          | _ => none
      | _ => []
    experience_years :=
      match alistGet data "experience_years" with
      | some (.num q) => some q
      | some (.bool b) => some (if b then 1 else 0)
      | some (.str s) => parsePyFloat s
      | _ => none
    education_entries :=
      match alistGet data "education_entries" with
      | some (.arr l) => l
      | _ => []
    sections :=
      match alistGet data "sections" with
      | some (.obj m) => m
      | _ => [] }

/-! ### Matcher (`matcher.py`) -/

/-- The `JobProfile` dataclass. -/
structure JobProfile where
  title : String
  description : String
  required_skills : List String

/-- `_skill_overlap`: case-insensitive set overlap ratio.  Python sets
are modelled by deduplicated lists; only cardinalities and membership
are used. -/
def _skill_overlap (resume_skills required : List String) : ℚ :=
  let resume_set := (resume_skills.map pyLower).dedup
  let required_set := (required.map pyLower).dedup
  if required_set = [] then (if resume_set ≠ [] then 1 else 0)
  else ((resume_set.filter fun s => s ∈ required_set).length : ℚ) / required_set.length

/-- `_experience_alignment`: clamp of the experience ratio, with a free
pass when the requirement is nonpositive. -/
def _experience_alignment (resume_years required_years : ℚ) : ℚ :=
  if required_years ≤ 0 then 1
  else max 0 (min (resume_years / required_years) 1)

/-- `heuristic_match`: deterministic fallback score and reasoning. -/
def heuristic_match (resume : ParsedResume) (job : JobProfile) : ℚ × String :=
  let skill_score := _skill_overlap resume.skills job.required_skills
  let resume_experience := resume.experience_years.getD 0
  let required_experience := _estimate_required_experience job.description
  let experience_score := _experience_alignment resume_experience required_experience
  let overall := pyRound2 ((7/10 * skill_score + 3/10 * experience_score) * 10)
  let base :=
    ["Skill match: " ++ fmtF0 (skill_score * 100) ++ "% overlap",
     "Experience: " ++ fmtF1 resume_experience ++ " years vs requirement "
       ++ fmtF1 required_experience ++ " years"]
  let reasoning_lines :=
    match resume.candidate_name with
    | some name => ("Candidate: " ++ name) :: base
    | none => base
  (overall, String.intercalate "\n" reasoning_lines)

/-- Python truthiness of a decoded-JSON value. -/
def jFalsy : JValue → Bool
  | .null => true
  | .bool b => !b
  | .num q => q == 0
  | .str s => s == ""
  | .arr l => l.isEmpty
  | .obj m => m.isEmpty

mutual

/-- Python `repr()` of a decoded-JSON value, which `str()` uses for
nested collections.  Number rendering follows this model
(`fmtG`); no claim depends on these renderings. -/
def pyRepr : JValue → String
  | .null => "None"
  | .bool true => "True"
  | .bool false => "False"
  | .num q => fmtG q
  | .str s => String.singleton (Char.ofNat 39) ++ s ++ String.singleton (Char.ofNat 39)
  | .arr l => "[" ++ String.intercalate ", " (pyReprList l) ++ "]"
  | .obj m => "\x7b" ++ String.intercalate ", " (pyReprObj m) ++ "\x7d"

def pyReprList : List JValue → List String
  | [] => []
  | v :: vs => pyRepr v :: pyReprList vs

def pyReprObj : List (String × JValue) → List String
  | [] => []
  | kv :: m => (String.singleton (Char.ofNat 39) ++ kv.1 ++ String.singleton (Char.ofNat 39)
      ++ ": " ++ pyRepr kv.2) :: pyReprObj m

end

/-- Python `str()` of a decoded-JSON value: a string renders as itself,
everything else as its repr. -/
def pyStr : JValue → String
  | .str s => s
  | v => pyRepr v

/-- The fallback brace search of `_parse_json_response` (`re.search` of
the pattern brace-dot-star-brace with DOTALL): greedy, so a match runs
from the first opening brace to the last closing brace after it.  If no
closing brace follows the first opening brace, no later opening brace
has one either, so there is no match. -/
def braceRegion (s : String) : Option String :=
  match s.toList.dropWhile fun c => c ≠ '{' with
  | [] => none
  | c :: rest =>
    match (c :: rest).reverse.dropWhile fun d => d ≠ '}' with
    | [] => none
    | e :: revRest => some ⟨(e :: revRest).reverse⟩

/-- `_parse_json_response`, with `json.loads` supplied as a parameter:
`loads t = none` models `JSONDecodeError`, `some v` the decoded value
(which need not be a dict).  Empty text returns an empty mapping; then
a strict decode is attempted, then a decode of the greedy brace region;
on total failure an empty mapping is returned.  The function never
raises. -/
def _parse_json_response (loads : String → Option JValue) (text : String) : JValue :=
  if text = "" then .obj []
  else
    match loads text with
    | some v => v
    | none =>
      match braceRegion text with
      | some region =>
        match loads region with
        | some v => v
        | none => .obj []
      | none => .obj []

/-- `parsed.get(key, default)`: `none` models the `AttributeError` that
`.get` raises when the parsed value is not a dict. -/
def dictGet (v : JValue) (k : String) (dflt : JValue) : Option JValue :=
  match v with
  | .obj m => some ((alistGet m k).getD dflt)
  | _ => none

/-- Python `float(x)` on a decoded-JSON value, as applied to the score
field: numbers and bools coerce, numeric-looking strings parse, and
everything else raises (`none`). -/
def pyFloatCoerce : JValue → Option ℚ
  | .num q => some q
  | .bool b => some (if b then 1 else 0)
  | .str s => parsePyFloat s
  | _ => none

/-- The reasoning-field handling of `_call_openai`: a list joins the
nonempty stripped `str()` renderings of its entries with newlines; any
other value renders with `str()`, falsy values replaced by the default
message. -/
def reasoningOf : JValue → String
  | .arr l => String.intercalate "\n"
      ((l.map fun v => pyStrip (pyStr v)).filter fun s => s ≠ "")
  | v => if jFalsy v then "No reasoning provided." else pyStr v

/-- `_call_openai` from the joined response text chunks on: strip, parse
permissively, coerce the score field with `float` (defaulting to 0 when
the field is absent), extract the reasoning, and return the configured
model name.  `none` models the exceptions the caller catches: `.get` on
a non-dict payload and a `float()` failure on the score field. -/
def _call_openai (loads : String → Option JValue) (model : String)
    (chunkText : String) : Option (ℚ × String × String) :=
  let parsed := _parse_json_response loads (pyStrip chunkText)
  match dictGet parsed "score" (.num 0) with
  | none => none
  | some scoreField =>
    match pyFloatCoerce scoreField with
    | none => none
    | some score =>
      match dictGet parsed "reasoning" .null with
      | none => none
      | some reasoningField => some (score, reasoningOf reasoningField, model)

/-- Outcome of the network layer of `LLMMatcher.score`: no configured
client; an exception raised before a response is obtained (network
error, timeout); or a response whose extracted text chunks join to the
given string. -/
inductive LLMOutcome where
  | noClient
  | raised
  | response (chunkText : String)

/-- `LLMMatcher.score`: with a response in hand, `_call_openai` either
returns a triple — always truthy, so it is returned with `model_used`
set — or raises, in which case (as with a network failure or a missing
client) the heuristic result is returned with `model_used = None`. -/
def LLMMatcher.score (loads : String → Option JValue) (model : String)
    (outcome : LLMOutcome) (resume : ParsedResume) (job : JobProfile) :
    ℚ × String × Option String :=
  match outcome with
  | .response chunkText =>
    match _call_openai loads model chunkText with
    | some (s, r, m) => (s, r, some m)
    | none =>
      let h := heuristic_match resume job
      (h.1, h.2, none)
  | _ =>
    let h := heuristic_match resume job
    (h.1, h.2, none)

/-- `shortlist_matches`: filter by the fixed threshold 7.0, stable sort
by score descending (`sorted(..., reverse=True)`), truncate to `limit`. -/
def shortlist_matches (ms : List (ℚ × String × ℤ)) (limit : ℕ) :
    List (ℚ × String × ℤ) :=
  ((ms.filter fun item => decide (7 ≤ item.1)).mergeSort
    fun a b => decide (b.1 ≤ a.1)).take limit

/-! ### Shared helper lemmas -/

theorem filterMap_str_of_map_str (l : List String) :
    (l.map JValue.str).filterMap
      (fun v => match v with | .str s => some s | _ => none) = l := by
  induction l with
  | nil => rfl
  | cons a l ih => simp only [List.map_cons, List.filterMap_cons, ih]

/-! ### C2: the scoring entry point, its fallback and the permissive parse -/

def emptyResume : ParsedResume := { raw_text := "" }

def plainJob : JobProfile := ⟨"t", "d", []⟩

theorem _call_openai_model_eq {loads : String → Option JValue} {model chunkText : String}
    {s : ℚ} {r m2 : String}
    (h : _call_openai loads model chunkText = some (s, r, m2)) : m2 = model := by
  unfold _call_openai at h
  dsimp only at h
  cases h1 : dictGet (_parse_json_response loads (pyStrip chunkText)) "score"
      (JValue.num 0) with
  | none =>
    rw [h1] at h
    exact Option.noConfusion h
  | some sf =>
    rw [h1] at h
    dsimp only at h
    cases h2 : pyFloatCoerce sf with
    | none =>
      rw [h2] at h
      exact Option.noConfusion h
    | some sc =>
      rw [h2] at h
      dsimp only at h
      cases h3 : dictGet (_parse_json_response loads (pyStrip chunkText)) "reasoning"
          JValue.null with
      | none =>
        rw [h3] at h
        exact Option.noConfusion h
      | some rf =>
        rw [h3] at h
        dsimp only at h
        simp only [Option.some.injEq, Prod.mk.injEq] at h
        exact h.2.2.symm

/-- Counterexample for C2 as stated: a malformed, brace-free, non-JSON
response does not fall back to the heuristic.  The permissive parser
returns an empty mapping, the score field defaults to 0, and the call
returns on the primary path with `model_used` set to the configured
model name, not `None`.  (The oracle `fun t => none` agrees with
`json.loads` on this content, which is not valid JSON; the rest of the
path consults nothing else.) -/
theorem llm_malformed_response_counterexample :
    LLMMatcher.score (fun _ => none) "gpt-4o-mini"
        (.response "Sorry, I cannot produce structured output.") emptyResume plainJob
      = (0, "No reasoning provided.", some "gpt-4o-mini")
    ∧ (some "gpt-4o-mini" : Option String) ≠ none :=
  ⟨rfl, by decide⟩

/-- C2 amended: `LLMMatcher.score` is total and always returns a numeric
score.  A missing or unconfigured client, a network error, and any
exception inside the primary path — a non-dict JSON payload (`.get`
raising) or a non-coercible score field (`float` raising) — are caught
and resolve to exactly the `heuristic_match` result with
`model_used = None`; `model_used` is a non-`None` name, always the
configured model, precisely when `_call_openai` returns a value.  A
malformed or non-JSON response, however, is not a failure: the
permissive parser yields an empty mapping and the call resolves on the
primary path with score 0.0, reasoning "No reasoning provided." and
`model_used` set to the model name — in particular whenever the
stripped content is empty or decodes to nothing with no brace region. -/
theorem LLMMatcher_score_amended (loads : String → Option JValue) (model : String)
    (o : LLMOutcome) (resume : ParsedResume) (job : JobProfile) :
    ((o = .noClient ∨ o = .raised) →
      LLMMatcher.score loads model o resume job
        = ((heuristic_match resume job).1, (heuristic_match resume job).2, none))
    ∧ (∀ text, o = .response text → _call_openai loads model text = none →
        LLMMatcher.score loads model o resume job
          = ((heuristic_match resume job).1, (heuristic_match resume job).2, none))
    ∧ (∀ text s r m2, o = .response text →
        _call_openai loads model text = some (s, r, m2) →
        LLMMatcher.score loads model o resume job = (s, r, some m2) ∧ m2 = model)
    ∧ ((LLMMatcher.score loads model o resume job).2.2 ≠ none →
        ∃ text result, o = .response text
          ∧ _call_openai loads model text = some result)
    ∧ (∀ text, (pyStrip text = ""
          ∨ (loads (pyStrip text) = none ∧ braceRegion (pyStrip text) = none)) →
        _call_openai loads model text
          = some (0, "No reasoning provided.", model)) := by
  refine ⟨?_, ?_, ?_, ?_, ?_⟩
  · intro h
    rcases h with h | h <;> subst h <;> rfl
  · intro text ho hc
    subst ho
    show (match _call_openai loads model text with
      | some (s, r, m) => (s, r, some m)
      | none => ((heuristic_match resume job).1, (heuristic_match resume job).2, none))
      = ((heuristic_match resume job).1, (heuristic_match resume job).2, none)
    rw [hc]
  · intro text s r m2 ho hc
    subst ho
    constructor
    · show (match _call_openai loads model text with
        | some (s, r, m) => (s, r, some m)
        | none => ((heuristic_match resume job).1, (heuristic_match resume job).2, none))
        = (s, r, some m2)
      rw [hc]
    · exact _call_openai_model_eq hc
  · intro h
    cases o with
    | noClient => exact absurd rfl h
    | raised => exact absurd rfl h
    | response text =>
      cases hc : _call_openai loads model text with
      | none =>
        exfalso
        apply h
        show (match _call_openai loads model text with
          | some (s, r, m) => (s, r, some m)
          | none => ((heuristic_match resume job).1,
              (heuristic_match resume job).2, none)).2.2 = none
        rw [hc]
      | some p => exact ⟨text, p, rfl, hc⟩
  · intro text h
    have hparsed : _parse_json_response loads (pyStrip text) = .obj [] := by
      unfold _parse_json_response
      rcases h with h | ⟨hl, hb⟩
      · rw [if_pos h]
      · by_cases he : pyStrip text = ""
        · rw [if_pos he]
        · rw [if_neg he, hl, hb]
    show _call_openai loads model text = some (0, "No reasoning provided.", model)
    unfold _call_openai
    rw [hparsed]
    rfl

/-- Witness for the amended C2: a concrete non-JSON response resolves on
the primary path with score 0 and the model name, while a raised
network error falls back to the heuristic result with no model name. -/
theorem LLMMatcher_score_amended_witness :
    _call_openai (fun _ => none) "gpt-4o-mini" "I am unable to answer."
        = some (0, "No reasoning provided.", "gpt-4o-mini")
    ∧ LLMMatcher.score (fun _ => none) "gpt-4o-mini" .raised emptyResume plainJob
        = ((heuristic_match emptyResume plainJob).1,
           (heuristic_match emptyResume plainJob).2, none) := by
  constructor
  · exact (LLMMatcher_score_amended (fun _ => none) "gpt-4o-mini"
      (.response "I am unable to answer.") emptyResume plainJob).2.2.2.2
      "I am unable to answer." (Or.inr ⟨rfl, rfl⟩)
  · exact (LLMMatcher_score_amended (fun _ => none) "gpt-4o-mini" .raised
      emptyResume plainJob).1 (Or.inr rfl)

/-! ### C4: persistence round trip -/

theorem from_storage_as_dict (p : ParsedResume) (raw : String) :
    (ParsedResume.from_storage raw p.as_dict).skills = p.skills
    ∧ (ParsedResume.from_storage raw p.as_dict).experience_years = p.experience_years
    ∧ (ParsedResume.from_storage raw p.as_dict).education_entries
        = p.education_entries := by
  refine ⟨?_, ?_, ?_⟩
  · have h : alistGet p.as_dict "skills" = some (.arr (p.skills.map .str)) := rfl
    show (match alistGet p.as_dict "skills" with
      | some (.arr l) => l.filterMap fun v =>
          match v with
          | .str s => some s
          | _ => none
      | _ => []) = p.skills
    rw [h]
    exact filterMap_str_of_map_str p.skills
  · cases hq : p.experience_years with
    | none =>
      show (match alistGet p.as_dict "experience_years" with
        | some (.num q) => some q
        | some (.bool b) => some (if b then 1 else 0)
        | some (.str s) => parsePyFloat s
        | _ => none) = none
      have h : alistGet p.as_dict "experience_years"
          = some (match p.experience_years with
            | some q => .num q
            | none => .null) := rfl
      rw [h, hq]
    | some q =>
      show (match alistGet p.as_dict "experience_years" with
        | some (.num q) => some q
        | some (.bool b) => some (if b then 1 else 0)
        | some (.str s) => parsePyFloat s
        | _ => none) = some q
      have h : alistGet p.as_dict "experience_years"
          = some (match p.experience_years with
            | some q => .num q
            | none => .null) := rfl
      rw [h, hq]
  · have h : alistGet p.as_dict "education_entries"
        = some (.arr p.education_entries) := rfl
    show (match alistGet p.as_dict "education_entries" with
      | some (.arr l) => l
      | _ => []) = p.education_entries
    rw [h]

/-- C4: reconstructing a parse result from its own serialized dict
reproduces the skills, experience_years and education_entries exactly. -/
theorem parse_storage_roundtrip (t : String) :
    (ParsedResume.from_storage (parse_resume_text t).raw_text
        (parse_resume_text t).as_dict).skills = (parse_resume_text t).skills
    ∧ (ParsedResume.from_storage (parse_resume_text t).raw_text
        (parse_resume_text t).as_dict).experience_years
        = (parse_resume_text t).experience_years
    ∧ (ParsedResume.from_storage (parse_resume_text t).raw_text
        (parse_resume_text t).as_dict).education_entries
        = (parse_resume_text t).education_entries :=
  from_storage_as_dict (parse_resume_text t) (parse_resume_text t).raw_text

/-! ### C5: parsing is total and degrades gracefully -/

/-- C5: `parse_resume_text` is a total function of the input text (it is
a plain Lean function, so determinism and totality are inherent in the
embedding); the empty string parses to a resume whose optional fields
are all absent and whose collections are empty, and garbage text
likewise degrades to absent fields rather than failing. -/
theorem parse_resume_text_total :
    (∀ t : String, (parse_resume_text t).raw_text = stripCR t)
    ∧ parse_resume_text ""
        = { raw_text := "", sections := [("section_order", .arr [])] }
    ∧ (parse_resume_text "!! ?? ## $$ %% ^^ &&").candidate_name = none
    ∧ (parse_resume_text "!! ?? ## $$ %% ^^ &&").contact_email = none
    ∧ (parse_resume_text "!! ?? ## $$ %% ^^ &&").contact_phone = none
    ∧ (parse_resume_text "!! ?? ## $$ %% ^^ &&").skills = []
    ∧ (parse_resume_text "!! ?? ## $$ %% ^^ &&").experience_years = none
    ∧ (parse_resume_text "!! ?? ## $$ %% ^^ &&").education_entries = [] := by
  refine ⟨fun t => rfl, rfl, rfl, rfl, rfl, rfl, rfl, rfl⟩

/-! ### C9: defensive reconstruction from persisted data -/

/-- Claim-side coercion of a persisted `experience_years` value, written
from the specification: numbers are coerced to float (Python counts
`bool` as numeric via `isinstance(x, (int, float))`), numeric-looking
strings are parsed, and everything else is treated as absent. -/
def expCoerceSpec : Option JValue → Option ℚ
  | some (.num q) => some q
  | some (.bool b) => some (if b then 1 else 0)
  | some (.str s) => parsePyFloat s
  | _ => none

/-- C9: `from_storage` is total for every persisted data shape, and each
field degrades to absent (`none` or empty) whenever the stored value
does not have the expected type; `experience_years` follows the numeric
coercion rules of the claim. -/
theorem from_storage_defensive (raw : String) (data : List (String × JValue)) :
    (ParsedResume.from_storage raw data).raw_text = raw
    ∧ (ParsedResume.from_storage raw data).candidate_name
        = (match alistGet data "candidate_name" with
           | some (.str s) => some s
           | _ => none)
    ∧ (ParsedResume.from_storage raw data).contact_email
        = (match alistGet data "contact_email" with
           | some (.str s) => some s
           | _ => none)
    ∧ (ParsedResume.from_storage raw data).contact_phone
        = (match alistGet data "contact_phone" with
           | some (.str s) => some s
           | _ => none)
    ∧ (ParsedResume.from_storage raw data).skills
        = (match alistGet data "skills" with
           | some (.arr l) => l.filterMap fun v =>
               match v with
               | .str s => some s
               | _ => none
           | _ => [])
    ∧ (ParsedResume.from_storage raw data).experience_years
        = expCoerceSpec (alistGet data "experience_years")
    ∧ (ParsedResume.from_storage raw data).education_entries
        = (match alistGet data "education_entries" with
           | some (.arr l) => l
           | _ => [])
    ∧ (ParsedResume.from_storage raw data).sections
        = (match alistGet data "sections" with
           | some (.obj m) => m
           | _ => []) := by
  refine ⟨rfl, rfl, rfl, rfl, rfl, ?_, rfl, rfl⟩
  show (match alistGet data "experience_years" with
    | some (.num q) => some q
    | some (.bool b) => some (if b then 1 else 0)
    | some (.str s) => parsePyFloat s
    | _ => none) = expCoerceSpec (alistGet data "experience_years")
  cases h : alistGet data "experience_years" with
  | none => rfl
  | some v => cases v <;> rfl

/-! ### C3: shortlisting -/

/-- C3: `shortlist_matches` keeps exactly the entries with score at
least 7.0, sorts them by score descending with a stable sort (a tied
pair keeps its original relative order), and truncates to the limit;
hence the result has no entry below 7.0, has length at most the limit,
and its scores are non-increasing. -/
theorem shortlist_matches_spec (ms : List (ℚ × String × ℤ)) (L : ℕ) :
    ∃ s : List (ℚ × String × ℤ),
      (ms.filter fun item => decide (7 ≤ item.1)).Perm s
      ∧ s.Pairwise (fun a b => b.1 ≤ a.1)
      ∧ (∀ a b : ℚ × String × ℤ, a.1 = b.1 →
          [a, b].Sublist (ms.filter fun item => decide (7 ≤ item.1)) →
          [a, b].Sublist s)
      ∧ shortlist_matches ms L = s.take L
      ∧ (∀ x ∈ shortlist_matches ms L, (7 : ℚ) ≤ x.1)
      ∧ (shortlist_matches ms L).length ≤ L
      ∧ (shortlist_matches ms L).Pairwise (fun a b => b.1 ≤ a.1) := by
  have trans : ∀ a b c : ℚ × String × ℤ,
      decide (b.1 ≤ a.1) → decide (c.1 ≤ b.1) → decide (c.1 ≤ a.1) := by
    intro a b c h1 h2
    simp only [decide_eq_true_eq] at h1 h2 ⊢
    exact le_trans h2 h1
  have total : ∀ a b : ℚ × String × ℤ,
      (decide (b.1 ≤ a.1) || decide (a.1 ≤ b.1)) = true := by
    intro a b
    rcases le_total b.1 a.1 with h | h <;> simp [h]
  have hsorted :
      ((ms.filter fun item => decide (7 ≤ item.1)).mergeSort
        fun a b => decide (b.1 ≤ a.1)).Pairwise fun a b => b.1 ≤ a.1 := by
    have := List.sorted_mergeSort trans total
      (ms.filter fun item => decide (7 ≤ item.1))
    exact this.imp fun h => of_decide_eq_true h
  refine ⟨(ms.filter fun item => decide (7 ≤ item.1)).mergeSort
      fun a b => decide (b.1 ≤ a.1),
    (List.mergeSort_perm _ _).symm, hsorted, ?_, ?_, ?_, ?_, ?_⟩
  · intro a b hab hsub
    exact List.sublist_mergeSort trans total
      (List.pairwise_pair.mpr (decide_eq_true (le_of_eq hab.symm))) hsub
  · rfl
  · intro x hx
    have hx2 : x ∈ (ms.filter fun item => decide (7 ≤ item.1)).mergeSort
        fun a b => decide (b.1 ≤ a.1) :=
      (List.take_sublist _ _).subset hx
    have hx3 : x ∈ ms.filter fun item => decide (7 ≤ item.1) :=
      List.mem_mergeSort.mp hx2
    exact of_decide_eq_true (List.mem_filter.mp hx3).2
  · exact List.length_take_le _ _
  · exact hsorted.sublist (List.take_sublist _ _)

def shortlistSample : List (ℚ × String × ℤ) :=
  [(8, "alice", 1), (5, "bob", 2), (8, "carol", 3), (9, "dave", 4)]

/-- Witness for C3: on a concrete batch, the tied pair of score-8
entries stays in submission order inside the sort underlying the
shortlist. -/
theorem shortlist_matches_spec_witness :
    ∃ s : List (ℚ × String × ℤ),
      [((8 : ℚ), "alice", (1 : ℤ)), ((8 : ℚ), "carol", (3 : ℤ))].Sublist s
      ∧ shortlist_matches shortlistSample 2 = s.take 2 := by
  obtain ⟨s, _, _, hstab, heq, _, _, _⟩ := shortlist_matches_spec shortlistSample 2
  refine ⟨s, hstab _ _ rfl ?_, heq⟩
  have hf : (shortlistSample.filter fun item => decide (7 ≤ item.1))
      = [((8 : ℚ), "alice", (1 : ℤ)), ((8 : ℚ), "carol", (3 : ℤ)),
         ((9 : ℚ), "dave", (4 : ℤ))] := by decide
  rw [hf]
  exact List.Sublist.cons₂ _ (List.Sublist.cons₂ _ (List.nil_sublist _))

/-! ### C8: name inference -/

/-- Claim-side predicate for a candidate-name line, written from the
specification: nonblank, does not parse as an email (the email pattern
applied at the start of the lower-cased line, which is how `re.match`
reads a line as an email), does not contain "resume" or
"curriculum vitae" case-insensitively, and has at most 5
whitespace-separated tokens. -/
def nameLineOk (s : String) : Bool :=
  !(s == "")
  && !emailMatchBool (pyLower s)
  && !(pyContains (pyLower s) "resume" || pyContains (pyLower s) "curriculum vitae")
  && decide ((pySplitWs s).length ≤ 5)

theorem inferNameGo_eq_find (ls : List String) :
    inferNameGo ls = (ls.map pyStrip).find? nameLineOk := by
  induction ls with
  | nil => rfl
  | cons l rest ih =>
    rw [List.map_cons, List.find?_cons]
    show (if pyStrip l = "" then inferNameGo rest
      else if emailMatchBool (pyLower (pyStrip l)) then inferNameGo rest
      else if pyContains (pyLower (pyStrip l)) "resume"
          || pyContains (pyLower (pyStrip l)) "curriculum vitae" then inferNameGo rest
      else if (pySplitWs (pyStrip l)).length ≤ 5 then some (pyStrip l)
      else inferNameGo rest) = _
    by_cases h1 : pyStrip l = ""
    · have hn : nameLineOk (pyStrip l) = false := by
        simp [nameLineOk, h1]
      rw [if_pos h1, hn]
      exact ih
    · rw [if_neg h1]
      by_cases h2 : emailMatchBool (pyLower (pyStrip l)) = true
      · have hn : nameLineOk (pyStrip l) = false := by
          simp [nameLineOk, h2]
        rw [if_pos h2, hn]
        exact ih
      · rw [if_neg h2]
        by_cases h3 : (pyContains (pyLower (pyStrip l)) "resume"
            || pyContains (pyLower (pyStrip l)) "curriculum vitae") = true
        · have hn : nameLineOk (pyStrip l) = false := by
            simp [nameLineOk, h3]
          rw [if_pos h3, hn]
          exact ih
        · rw [if_neg h3]
          by_cases h4 : (pySplitWs (pyStrip l)).length ≤ 5
          · have h2f : emailMatchBool (pyLower (pyStrip l)) = false := by
              simpa using h2
            have h3f : pyContains (pyLower (pyStrip l)) "resume" = false
                ∧ pyContains (pyLower (pyStrip l)) "curriculum vitae" = false := by
              simpa using h3
            have hn : nameLineOk (pyStrip l) = true := by
              simp [nameLineOk, h1, h2f, h3f.1, h3f.2, h4]
            rw [if_pos h4, hn]
          · have hn : nameLineOk (pyStrip l) = false := by
              simp [nameLineOk, h4]
            rw [if_neg h4, hn]
            exact ih

/-- C8: `_infer_name` scans the lines in order and returns exactly the
first trimmed line that is nonblank, does not parse as an email, does
not mention "resume" or "curriculum vitae", and has at most five
whitespace-separated tokens; `parse_resume_text` stores this as
`candidate_name` over the carriage-return-normalized text. -/
theorem infer_name_spec (t : String) :
    (parse_resume_text t).candidate_name = _infer_name (stripCR t)
    ∧ _infer_name t = ((pySplitLines t).map pyStrip).find? nameLineOk :=
  ⟨rfl, inferNameGo_eq_find (pySplitLines t)⟩

/-! ### C6: section segmentation against the spec wording -/

/-- Strip at most one trailing colon, the literal reading of the claim
phrase "optionally with a trailing colon stripped". -/
def stripOneColon (s : String) : String :=
  match s.toList.getLast? with
  | some ':' => ⟨s.toList.dropLast⟩
  | _ => s

/-- Header test as the claim words it, parameterized by the
colon-stripping convention: the trimmed lower-cased line equals a
synonym verbatim or after stripping. -/
def headerOfSpec (strip : String → String) (normalized : String) : Option String :=
  (_SECTION_HEADERS.find? fun kv =>
    kv.2.contains normalized || kv.2.contains (strip normalized)).map fun kv => kv.1

/-- The claim-side section splitter, written from the specification
text: scan the lines, skip blank lines entirely, switch the current
section on a header line without storing it, append every other trimmed
line to the current section (initially `summary`), and join each
section body with newlines. -/
def splitSpecGo (strip : String → String) :
    List String → List (String × List String) → String → List String →
    List (String × String) × List String
  | [], m, _, order => (m.map fun kv => (kv.1, String.intercalate "\n" kv.2), order)
  | line :: rest, m, cur, order =>
    let s := pyStrip line
    if s = "" then splitSpecGo strip rest m cur order
    else
      match headerOfSpec strip (pyLower s) with
      | some key =>
        if hasKeyL m key then splitSpecGo strip rest m key order
        else splitSpecGo strip rest (m ++ [(key, [])]) key (order ++ [key])
      | none =>
        splitSpecGo strip rest (appendLineL m cur s) cur
          (if order.contains cur then order else order ++ [cur])

def splitSpec (strip : String → String) (text : String) :
    List (String × String) × List String :=
  splitSpecGo strip (pySplitLines text) [] "summary" []

theorem splitSpecGo_eq_foldl (ls : List String) :
    ∀ (m : List (String × List String)) (cur : String) (order : List String),
      splitSpecGo rstripColons ls m cur order
        = ((ls.foldl splitLine ⟨m, cur, order⟩).sections.map
              fun kv => (kv.1, String.intercalate "\n" kv.2),
           (ls.foldl splitLine ⟨m, cur, order⟩).order) := by
  induction ls with
  | nil => intro m cur order; rfl
  | cons line rest ih =>
    intro m cur order
    rw [List.foldl_cons]
    show (if pyStrip line = "" then splitSpecGo rstripColons rest m cur order
      else
        match headerOfSpec rstripColons (pyLower (pyStrip line)) with
        | some key =>
          if hasKeyL m key then splitSpecGo rstripColons rest m key order
          else splitSpecGo rstripColons rest (m ++ [(key, [])]) key (order ++ [key])
        | none =>
          splitSpecGo rstripColons rest (appendLineL m cur (pyStrip line)) cur
            (if order.contains cur then order else order ++ [cur])) = _
    have hsl : splitLine ⟨m, cur, order⟩ line
        = (if pyStrip line = "" then (⟨m, cur, order⟩ : SplitAcc)
          else
            match headerOf (pyLower (pyStrip line)) with
            | some key =>
              if hasKeyL m key then ⟨m, key, order⟩
              else ⟨m ++ [(key, [])], key, order ++ [key]⟩
            | none =>
              ⟨appendLineL m cur (pyStrip line), cur,
                if order.contains cur then order else order ++ [cur]⟩) := rfl
    rw [hsl]
    by_cases h1 : pyStrip line = ""
    · rw [if_pos h1, if_pos h1]
      exact ih m cur order
    · rw [if_neg h1, if_neg h1]
      have hh : headerOfSpec rstripColons (pyLower (pyStrip line))
          = headerOf (pyLower (pyStrip line)) := rfl
      rw [hh]
      cases h2 : headerOf (pyLower (pyStrip line)) with
      | some key =>
        dsimp only
        by_cases h3 : hasKeyL m key = true
        · rw [if_pos h3, if_pos h3]
          exact ih m key order
        · rw [if_neg h3, if_neg h3]
          exact ih (m ++ [(key, [])]) key (order ++ [key])
      | none =>
        dsimp only
        exact ih (appendLineL m cur (pyStrip line)) cur
          (if order.contains cur then order else order ++ [cur])

/-- Counterexample for C6 as stated: on a line ending in two colons the
source strips every trailing colon (`rstrip(":")`), so `"Skills::"` is a
header, while the claim (one optional trailing colon) classifies it as
a content line appended to the current section. -/
theorem split_double_colon_counterexample :
    _split_into_sections "Intro\nSkills::\nPython"
        = ([("summary", "Intro"), ("skills", "Python")], ["summary", "skills"])
    ∧ splitSpec stripOneColon "Intro\nSkills::\nPython"
        = ([("summary", "Intro\nSkills::\nPython")], ["summary"])
    ∧ _split_into_sections "Intro\nSkills::\nPython"
        ≠ splitSpec stripOneColon "Intro\nSkills::\nPython" :=
  ⟨rfl, rfl, by decide⟩

/-- C6 amended: the section splitter behaves exactly as the claim
describes once "a trailing colon" is read as "all trailing colons"
(`rstrip(":")`): blank lines are skipped, a trimmed lower-cased line
equal to a synonym (verbatim or with all trailing colons stripped)
switches the section and is not stored, every other trimmed line is
appended to the current section initialized to `summary`, and bodies
are newline-joined. -/
theorem split_into_sections_amended (t : String) :
    _split_into_sections t = splitSpec rstripColons t :=
  (splitSpecGo_eq_foldl (pySplitLines t) [] "summary" []).symm

/-! ### C7: education extraction -/

/-- Claim-side education extraction, written from the amended claim:
split the education text on double newlines; every non-empty trimmed
block yields an entry whose summary is the block text, with a years
field (present exactly when the block has four-digit matches) equal to
the distinct matched years sorted ascending and hyphen-joined — so a
single year renders with no hyphen. -/
def eduSpec (s : String) : List EduEntry :=
  (splitBlocks s).filterMap fun block =>
    let b := pyStrip block
    if b = "" then none
    else
      some ⟨b,
        if (findYears b.toList).isEmpty then none
        else some (String.intercalate "-"
          (pySortStrs ((findYears b.toList).map fun cs => (⟨cs⟩ : String)).dedup))⟩

/-- Counterexample for C7 as stated: a block containing the single year
2017 yields the years string "2017", not "2017-2017" as the claim
asserts (`"-".join` of a one-element set has no hyphen). -/
theorem education_single_year_counterexample :
    _extract_education "B.S. Example University 2017"
        = [⟨"B.S. Example University 2017", some "2017"⟩]
    ∧ (some "2017" : Option String) ≠ some "2017-2017" :=
  ⟨rfl, by decide⟩

/-- C7 amended: `_extract_education` operates on the education text
split at double newlines, each non-empty trimmed block giving a summary
plus the distinct four-digit matches sorted ascending and hyphen-joined
(a block with both 2017 and 2020 yields "2017-2020"; a block with the
single year 2017 yields "2017"). -/
theorem extract_education_amended (s : String) :
    _extract_education s = eduSpec s
    ∧ _extract_education "B.S. 2020 Example University, prior 2017"
        = [⟨"B.S. 2020 Example University, prior 2017", some "2017-2020"⟩]
    ∧ _extract_education "College\n\nB.S. 2017"
        = [⟨"College", none⟩, ⟨"B.S. 2017", some "2017"⟩] := by
  refine ⟨?_, rfl, rfl⟩
  by_cases h : s = ""
  · subst h; rfl
  · unfold _extract_education eduSpec
    rw [if_neg h]
    generalize splitBlocks s = bs
    induction bs with
    | nil => rfl
    | cons b rest ih =>
      rw [List.filterMap_cons, List.filterMap_cons, ih]
      by_cases hb : pyStrip b = ""
      · simp [hb]
      · cases hy : findYears (pyStrip b).toList with
        | nil =>
          simp only [String.toList] at hy
          simp [hb, hy]
        | cons y ys =>
          simp only [String.toList] at hy
          simp [hb, hy, joinYears]

/-! ### C10: the `section_order` entry and the backfilled keys -/

theorem find?_isSome_eq_any {α : Type} (p : α → Bool) (l : List α) :
    (l.find? p).isSome = l.any p := by
  induction l with
  | nil => rfl
  | cons a l ih => by_cases h : p a <;> simp [List.find?_cons, h, ih]

theorem any_key_map {β γ : Type} (f : β → γ) (l : List (String × β)) (k : String) :
    ((l.map fun kv => (kv.1, f kv.2)).any fun kv => kv.1 == k)
      = l.any fun kv => kv.1 == k := by
  induction l with
  | nil => rfl
  | cons a l ih => simp only [List.map_cons, List.any_cons, ih]

theorem alistGet_isSome_eq_any (m : List (String × JValue)) (k : String) :
    (alistGet m k).isSome = m.any fun kv => kv.1 == k := by
  unfold alistGet
  rw [← find?_isSome_eq_any]
  cases m.find? fun kv => kv.1 == k <;> rfl

theorem any_map_keyfix (m : List (String × JValue)) (k k2 : String) (v : JValue) :
    ((m.map fun kv => if kv.1 == k then (kv.1, v) else kv).any fun kv => kv.1 == k2)
      = m.any fun kv => kv.1 == k2 := by
  induction m with
  | nil => rfl
  | cons a m ih =>
    rw [List.map_cons, List.any_cons, List.any_cons, ih]
    by_cases ha : (a.1 == k) = true
    · rw [if_pos ha]
    · rw [if_neg ha]

theorem find?_map_keyfix (m : List (String × JValue)) (k : String) (v : JValue)
    (hm : (m.any fun kv => kv.1 == k) = true) :
    ((m.map fun kv => if kv.1 == k then (kv.1, v) else kv).find? fun kv => kv.1 == k)
      = some (k, v) := by
  induction m with
  | nil => simp at hm
  | cons a m ih =>
    rw [List.map_cons, List.find?_cons]
    by_cases ha : (a.1 == k) = true
    · have hk : a.1 = k := by simpa using ha
      rw [if_pos ha]
      show (match ((a.1, v).1 == k : Bool) with
        | true => some (a.1, v)
        | false => (m.map fun kv => if kv.1 == k then (kv.1, v) else kv).find?
            fun kv => kv.1 == k) = some (k, v)
      rw [show ((a.1, v).1 == k) = true from ha, hk]
    · have haf : (a.1 == k) = false := by simpa using ha
      have hm2 : (m.any fun kv => kv.1 == k) = true := by
        rw [List.any_cons] at hm
        rcases Bool.or_eq_true_iff.mp hm with h | h
        · exact absurd h ha
        · exact h
      rw [if_neg ha]
      show (match (a.1 == k : Bool) with
        | true => some a
        | false => (m.map fun kv => if kv.1 == k then (kv.1, v) else kv).find?
            fun kv => kv.1 == k) = some (k, v)
      rw [haf]
      exact ih hm2

theorem alistGet_alistSet_self (m : List (String × JValue)) (k : String) (v : JValue) :
    alistGet (alistSet m k v) k = some v := by
  unfold alistSet
  by_cases h : (m.any fun kv => kv.1 == k) = true
  · rw [if_pos h]
    unfold alistGet
    rw [find?_map_keyfix m k v h]
    rfl
  · rw [if_neg h]
    unfold alistGet
    rw [List.find?_append]
    have hnone : (m.find? fun kv => kv.1 == k) = none := by
      cases hf : m.find? fun kv => kv.1 == k with
      | none => rfl
      | some x =>
        have hiso := find?_isSome_eq_any (fun kv : String × JValue => kv.1 == k) m
        rw [hf] at hiso
        exact absurd hiso.symm h
    rw [hnone]
    simp [List.find?_cons]

theorem alistGet_isSome_alistSet (m : List (String × JValue)) (k k2 : String)
    (v : JValue) (h : (alistGet m k2).isSome = true) :
    (alistGet (alistSet m k v) k2).isSome = true := by
  unfold alistSet
  by_cases hc : (m.any fun kv => kv.1 == k) = true
  · rw [if_pos hc]
    rw [alistGet_isSome_eq_any] at h
    rw [alistGet_isSome_eq_any, any_map_keyfix]
    exact h
  · rw [if_neg hc]
    rw [alistGet_isSome_eq_any] at h
    rw [alistGet_isSome_eq_any, List.any_append]
    simp [h]

theorem alistGet_isSome_append (m l : List (String × JValue)) (k : String)
    (h : (alistGet m k).isSome = true) :
    (alistGet (m ++ l) k).isSome = true := by
  rw [alistGet_isSome_eq_any] at h ⊢
  simp [List.any_append, h]

theorem any_map_keyapp (m : List (String × List String)) (cur k w : String) :
    ((m.map fun kv => if kv.1 == cur then (kv.1, kv.2 ++ [w]) else kv).any
        fun kv => kv.1 == k)
      = m.any fun kv => kv.1 == k := by
  induction m with
  | nil => rfl
  | cons a m ih =>
    rw [List.map_cons, List.any_cons, List.any_cons, ih]
    by_cases ha : (a.1 == cur) = true
    · rw [if_pos ha]
    · rw [if_neg ha]

/-- The segmentation loop keeps the set of section keys equal to the set
of names in the order list. -/
theorem splitLine_keys (acc : SplitAcc) (line : String)
    (hinv : ∀ k, hasKeyL acc.sections k = true ↔ k ∈ acc.order) :
    ∀ k, hasKeyL (splitLine acc line).sections k = true
      ↔ k ∈ (splitLine acc line).order := by
  intro k
  unfold splitLine
  by_cases h1 : pyStrip line = ""
  · rw [if_pos h1]
    exact hinv k
  · rw [if_neg h1]
    cases h2 : headerOf (pyLower (pyStrip line)) with
    | some key =>
      dsimp only
      by_cases h3 : hasKeyL acc.sections key = true
      · rw [if_pos h3]
        exact hinv k
      · rw [if_neg h3]
        show hasKeyL (acc.sections ++ [(key, [])]) k = true
          ↔ k ∈ acc.order ++ [key]
        unfold hasKeyL
        rw [List.any_append]
        simp only [List.any_cons, List.any_nil, Bool.or_false, Bool.or_eq_true,
          List.mem_append, List.mem_singleton]
        constructor
        · rintro (h | h)
          · exact Or.inl ((hinv k).mp h)
          · exact Or.inr (beq_iff_eq.mp h).symm
        · rintro (h | h)
          · exact Or.inl ((hinv k).mpr h)
          · exact Or.inr (beq_iff_eq.mpr h.symm)
    | none =>
      dsimp only
      show hasKeyL (appendLineL acc.sections acc.current (pyStrip line)) k = true
        ↔ k ∈ (if acc.order.contains acc.current then acc.order
               else acc.order ++ [acc.current])
      have happ : hasKeyL (appendLineL acc.sections acc.current (pyStrip line)) k
          = (hasKeyL acc.sections k || acc.current == k) := by
        unfold appendLineL
        by_cases hc : hasKeyL acc.sections acc.current = true
        · rw [if_pos hc]
          unfold hasKeyL
          rw [any_map_keyapp]
          by_cases he : acc.current == k
          · have hk : acc.current = k := by simpa using he
            subst hk
            unfold hasKeyL at hc
            simp [hc]
          · simp [he]
        · rw [if_neg hc]
          unfold hasKeyL
          simp [List.any_append]
      rw [happ]
      by_cases ho : acc.order.contains acc.current = true
      · rw [if_pos ho]
        have hcur : acc.current ∈ acc.order := by simpa using ho
        simp only [Bool.or_eq_true]
        constructor
        · rintro (h | h)
          · exact (hinv k).mp h
          · have : acc.current = k := by simpa using h
            subst this
            exact hcur
        · intro h
          exact Or.inl ((hinv k).mpr h)
      · rw [if_neg ho]
        simp only [Bool.or_eq_true, List.mem_append, List.mem_singleton]
        constructor
        · rintro (h | h)
          · exact Or.inl ((hinv k).mp h)
          · exact Or.inr (beq_iff_eq.mp h).symm
        · rintro (h | h)
          · exact Or.inl ((hinv k).mpr h)
          · exact Or.inr (beq_iff_eq.mpr h.symm)

theorem backfillSkills_isSome (secJ : List (String × JValue)) (skills : List String)
    (k : String) (h : (alistGet secJ k).isSome = true) :
    (alistGet (backfillSkills secJ skills) k).isSome = true := by
  unfold backfillSkills
  split
  · exact alistGet_isSome_append _ _ _ h
  · exact h

theorem backfillExperience_isSome (secJ : List (String × JValue)) (exp : Option ℚ)
    (k : String) (h : (alistGet secJ k).isSome = true) :
    (alistGet (backfillExperience secJ exp) k).isSome = true := by
  unfold backfillExperience
  split
  · exact alistGet_isSome_append _ _ _ h
  · exact h

theorem backfillSkills_adds (secJ : List (String × JValue)) (skills : List String)
    (hno : (secJ.any fun kv => kv.1 == "skills") = false) (hsk : skills ≠ []) :
    (alistGet (backfillSkills secJ skills) "skills").isSome = true := by
  unfold backfillSkills
  have hne : skills.isEmpty = false := by
    cases skills with
    | nil => exact absurd rfl hsk
    | cons a l => rfl
  rw [hno, hne]
  show (alistGet (secJ ++ [("skills", _)]) "skills").isSome = true
  rw [alistGet_isSome_eq_any, List.any_append, hno]
  rfl

theorem backfillSkills_any_ne (secJ : List (String × JValue)) (skills : List String)
    (k : String) (hk : ("skills" == k) = false) :
    ((backfillSkills secJ skills).any fun kv => kv.1 == k)
      = secJ.any fun kv => kv.1 == k := by
  unfold backfillSkills
  split
  · rw [List.any_append]
    show (_ || ((("skills" == k) || false) : Bool)) = _
    rw [hk]
    simp
  · rfl

theorem backfillExperience_adds (secJ : List (String × JValue)) (exp : Option ℚ)
    (hno : (secJ.any fun kv => kv.1 == "experience") = false)
    (hex : exp.isSome = true) :
    (alistGet (backfillExperience secJ exp) "experience").isSome = true := by
  unfold backfillExperience
  rw [hno, hex]
  show (alistGet (secJ ++ [("experience", _)]) "experience").isSome = true
  rw [alistGet_isSome_eq_any, List.any_append, hno]
  rfl

theorem buildSections_spec (sections : List (String × String)) (order : List String)
    (skills : List String) (exp : Option ℚ) :
    alistGet (buildSections sections order skills exp) "section_order"
        = some (.arr (order.map .str))
    ∧ (∀ k, ((sections.find? fun kv => kv.1 == k).isSome = true) →
        (alistGet (buildSections sections order skills exp) k).isSome = true)
    ∧ (((sections.find? fun kv => kv.1 == "skills").isSome = false) → skills ≠ [] →
        (alistGet (buildSections sections order skills exp) "skills").isSome = true)
    ∧ (((sections.find? fun kv => kv.1 == "experience").isSome = false) →
        exp.isSome = true →
        (alistGet (buildSections sections order skills exp) "experience").isSome
          = true) := by
  have hbase : ∀ k, ((sections.map fun kv => (kv.1, JValue.str kv.2)).any
      fun kv => kv.1 == k) = sections.any fun kv => kv.1 == k :=
    fun k => any_key_map _ sections k
  refine ⟨alistGet_alistSet_self _ _ _, ?_, ?_, ?_⟩
  · intro k hk
    rw [find?_isSome_eq_any] at hk
    apply alistGet_isSome_alistSet
    apply backfillExperience_isSome
    apply backfillSkills_isSome
    rw [alistGet_isSome_eq_any, hbase k]
    exact hk
  · intro hno hsk
    rw [find?_isSome_eq_any] at hno
    apply alistGet_isSome_alistSet
    apply backfillExperience_isSome
    apply backfillSkills_adds
    · rw [hbase]
      exact hno
    · exact hsk
  · intro hno hex
    rw [find?_isSome_eq_any] at hno
    apply alistGet_isSome_alistSet
    apply backfillExperience_adds
    · rw [backfillSkills_any_ne _ _ "experience" rfl, hbase]
      exact hno
    · exact hex

theorem foldl_splitLine_keys (ls : List String) :
    ∀ acc : SplitAcc, (∀ k, hasKeyL acc.sections k = true ↔ k ∈ acc.order) →
      ∀ k, hasKeyL (ls.foldl splitLine acc).sections k = true
        ↔ k ∈ (ls.foldl splitLine acc).order := by
  induction ls with
  | nil => intro acc h; exact h
  | cons line rest ih =>
    intro acc h
    rw [List.foldl_cons]
    exact ih (splitLine acc line) (splitLine_keys acc line h)

/-- The keys of the split section map are exactly the names recorded in
the order list. -/
theorem split_sections_keys (t : String) (k : String) :
    ((_split_into_sections t).1.find? fun kv => kv.1 == k).isSome = true
      ↔ k ∈ (_split_into_sections t).2 := by
  unfold _split_into_sections
  rw [find?_isSome_eq_any]
  have hmap := any_key_map (fun vs => String.intercalate "\n" vs)
    ((pySplitLines t).foldl splitLine ⟨[], "summary", []⟩).sections k
  rw [hmap]
  exact foldl_splitLine_keys (pySplitLines t) ⟨[], "summary", []⟩
    (fun k2 => by simp [hasKeyL]) k

/-- C10: in every parse result, the sections entry `section_order` holds
the list of section names from segmentation (a list value, unlike the
newline-joined string bodies of every other entry); every name in that
list is a key of the section map; and a backfilled `skills` or
`experience` entry (synthesized when the text had no such section but
the field was inferred) is a key of the section map that does not appear
in the `section_order` list. -/
theorem section_order_invariant (t : String) :
    alistGet (parse_resume_text t).sections "section_order"
        = some (.arr ((_split_into_sections (stripCR t)).2.map .str))
    ∧ (∀ k ∈ (_split_into_sections (stripCR t)).2,
        (alistGet (parse_resume_text t).sections k).isSome = true)
    ∧ ((((_split_into_sections (stripCR t)).1.find? fun kv => kv.1 == "skills").isSome
          = false) →
        (parse_resume_text t).skills ≠ [] →
        ((alistGet (parse_resume_text t).sections "skills").isSome = true
          ∧ "skills" ∉ (_split_into_sections (stripCR t)).2))
    ∧ ((((_split_into_sections (stripCR t)).1.find? fun kv =>
            kv.1 == "experience").isSome = false) →
        (parse_resume_text t).experience_years.isSome = true →
        ((alistGet (parse_resume_text t).sections "experience").isSome = true
          ∧ "experience" ∉ (_split_into_sections (stripCR t)).2)) := by
  obtain ⟨h1, h2, h3, h4⟩ := buildSections_spec (_split_into_sections (stripCR t)).1
    (_split_into_sections (stripCR t)).2
    (pySortStrs (_match_skills (stripCR t)))
    (_estimate_experience_years (stripCR t))
  have hsec : (parse_resume_text t).sections
      = buildSections (_split_into_sections (stripCR t)).1
          (_split_into_sections (stripCR t)).2
          (pySortStrs (_match_skills (stripCR t)))
          (_estimate_experience_years (stripCR t)) := rfl
  refine ⟨?_, ?_, ?_, ?_⟩
  · rw [hsec]
    exact h1
  · intro k hk
    rw [hsec]
    exact h2 k ((split_sections_keys (stripCR t) k).mpr hk)
  · intro hno hsk
    refine ⟨?_, ?_⟩
    · rw [hsec]
      exact h3 hno hsk
    · intro hmem
      have hsome := (split_sections_keys (stripCR t) "skills").mpr hmem
      simp [hno] at hsome
  · intro hno hex
    refine ⟨?_, ?_⟩
    · rw [hsec]
      exact h4 hno hex
    · intro hmem
      have hsome := (split_sections_keys (stripCR t) "experience").mpr hmem
      simp [hno] at hsome

/-- Witness for C10: a text with no `Skills`/`Experience` headers but an
inferable skill and an inferable experience duration gets both sections
backfilled, without either name entering `section_order`. -/
theorem section_order_invariant_witness :
    (alistGet (parse_resume_text "john\npython developer\n7 years on the job").sections
        "skills").isSome = true
    ∧ "skills" ∉ (_split_into_sections
        (stripCR "john\npython developer\n7 years on the job")).2
    ∧ (alistGet (parse_resume_text "john\npython developer\n7 years on the job").sections
        "experience").isSome = true
    ∧ "experience" ∉ (_split_into_sections
        (stripCR "john\npython developer\n7 years on the job")).2 := by
  obtain ⟨_, _, h3, h4⟩ :=
    section_order_invariant "john\npython developer\n7 years on the job"
  have a := h3 (by decide) (by decide)
  have b := h4 (by decide) (by decide)
  exact ⟨a.1, a.2, b.1, b.2⟩

/-! ### C1: the heuristic score formula and its bounds -/

theorem le_rhe_of_le {q : ℚ} {z : ℤ} (h : (z : ℚ) ≤ q) : z ≤ rhe q := by
  have hf : z ≤ ⌊q⌋ := Int.le_floor.mpr h
  simp only [rhe]
  split_ifs <;> omega

theorem rhe_le_of_le {q : ℚ} {z : ℤ} (h : q ≤ (z : ℚ)) : rhe q ≤ z := by
  have hf : ⌊q⌋ ≤ z := by
    rw [← Int.floor_intCast (α := ℚ) z]
    exact Int.floor_le_floor h
  unfold rhe
  by_cases h1 : q - (⌊q⌋ : ℚ) < 1/2
  · rw [if_pos h1]
    exact hf
  · rw [if_neg h1]
    have hhalf : (1 : ℚ)/2 ≤ q - (⌊q⌋ : ℚ) := le_of_not_lt h1
    have hzlt : ⌊q⌋ < z := by
      have hcast : ((⌊q⌋ : ℚ)) < (z : ℚ) := by linarith
      exact_mod_cast hcast
    by_cases h2 : (1 : ℚ)/2 < q - (⌊q⌋ : ℚ)
    · rw [if_pos h2]
      omega
    · rw [if_neg h2]
      by_cases h3 : ⌊q⌋ % 2 = 0
      · rw [if_pos h3]
        omega
      · rw [if_neg h3]
        omega

theorem pyRound2_bounds {q : ℚ} (h0 : 0 ≤ q) (h1 : q ≤ 10) :
    0 ≤ pyRound2 q ∧ pyRound2 q ≤ 10 := by
  unfold pyRound2
  have hl : (0 : ℤ) ≤ rhe (q * 100) := le_rhe_of_le (by push_cast; linarith)
  have hu : rhe (q * 100) ≤ (1000 : ℤ) := rhe_le_of_le (by push_cast; linarith)
  have hlq : (0 : ℚ) ≤ (rhe (q * 100) : ℚ) := by exact_mod_cast hl
  have huq : ((rhe (q * 100) : ℚ)) ≤ 1000 := by exact_mod_cast hu
  constructor
  · positivity
  · rw [div_le_iff₀ (by norm_num : (0 : ℚ) < 100)]
    linarith

/-- Claim-side skill score: the cardinality of the case-insensitive
intersection of the skill sets over the cardinality of the required
set, with the empty-requirement rule. -/
def skillScoreSpec (resume_skills required : List String) : ℚ :=
  if (required.map pyLower).toFinset = ∅ then (if resume_skills ≠ [] then 1 else 0)
  else ((resume_skills.map pyLower).toFinset ∩ (required.map pyLower).toFinset).card
       / ((required.map pyLower).toFinset.card : ℚ)

/-- Claim-side experience score: `clamp(resume/required, 0, 1)`, with a
free 1.0 when the requirement is nonpositive and the missing-experience
default already applied by the caller. -/
def expScoreSpec (resume_years required_years : ℚ) : ℚ :=
  if required_years ≤ 0 then 1 else min (max (resume_years / required_years) 0) 1

theorem list_toFinset_dedup (l : List String) : l.dedup.toFinset = l.toFinset := by
  ext x
  simp [List.mem_toFinset, List.mem_dedup]

theorem dedup_filter_mem_length (X Y : List String) :
    (X.dedup.filter fun s => decide (s ∈ Y.dedup)).length
      = (X.toFinset ∩ Y.toFinset).card := by
  have hnd : (X.dedup.filter fun s => decide (s ∈ Y.dedup)).Nodup :=
    (List.nodup_dedup X).filter _
  rw [← List.toFinset_card_of_nodup hnd]
  congr 1
  rw [List.toFinset_filter, list_toFinset_dedup]
  rw [← Finset.filter_mem_eq_inter]
  apply Finset.filter_congr
  intro x _
  simp [List.mem_dedup, List.mem_toFinset]

theorem skill_overlap_eq_spec (a b : List String) :
    _skill_overlap a b = skillScoreSpec a b := by
  unfold _skill_overlap skillScoreSpec
  by_cases hb : (b.map pyLower).dedup = []
  · have hb2 : b.map pyLower = [] := (List.dedup_eq_nil _).mp hb
    have hb3 : (b.map pyLower).toFinset = ∅ := by rw [hb2]; rfl
    rw [if_pos hb, if_pos hb3]
    have hiff : ((a.map pyLower).dedup ≠ []) ↔ (a ≠ []) := by
      rw [ne_eq, List.dedup_eq_nil, List.map_eq_nil_iff]
    by_cases ha : a = []
    · rw [if_neg (by rw [hiff]; exact fun h => h ha), if_neg (fun h => h ha)]
    · rw [if_pos (hiff.mpr ha), if_pos ha]
  · have hb3 : (b.map pyLower).toFinset ≠ ∅ := by
      intro hcon
      exact hb (by rw [(List.toFinset_eq_empty_iff _).mp hcon]; rfl)
    rw [if_neg hb, if_neg hb3]
    rw [dedup_filter_mem_length (a.map pyLower) (b.map pyLower)]
    rw [List.card_toFinset]

theorem clamp_comm (x : ℚ) : max 0 (min x 1) = min (max x 0) 1 := by
  rw [max_min_distrib_left, max_comm (0 : ℚ) x]
  norm_num

theorem experience_alignment_eq_spec (ry rq : ℚ) :
    _experience_alignment ry rq = expScoreSpec ry rq := by
  unfold _experience_alignment expScoreSpec
  by_cases h : rq ≤ 0
  · rw [if_pos h, if_pos h]
  · rw [if_neg h, if_neg h]
    exact clamp_comm _

theorem skillScoreSpec_bounds (a b : List String) :
    0 ≤ skillScoreSpec a b ∧ skillScoreSpec a b ≤ 1 := by
  unfold skillScoreSpec
  split_ifs with h1 h2
  · exact ⟨by norm_num, by norm_num⟩
  · exact ⟨le_refl 0, by norm_num⟩
  · have hpos : 0 < ((b.map pyLower).toFinset.card : ℚ) := by
      have : (b.map pyLower).toFinset.Nonempty :=
        Finset.nonempty_iff_ne_empty.mpr h1
      exact_mod_cast Finset.card_pos.mpr this
    constructor
    · apply div_nonneg _ (le_of_lt hpos)
      positivity
    · rw [div_le_one hpos]
      have hss : (a.map pyLower).toFinset ∩ (b.map pyLower).toFinset
          ⊆ (b.map pyLower).toFinset := Finset.inter_subset_right
      have := Finset.card_le_card hss
      exact_mod_cast this

theorem expScoreSpec_bounds (ry rq : ℚ) :
    0 ≤ expScoreSpec ry rq ∧ expScoreSpec ry rq ≤ 1 := by
  unfold expScoreSpec
  split_ifs
  · exact ⟨by norm_num, le_refl 1⟩
  · constructor
    · exact le_min (le_max_right _ _) (by norm_num)
    · exact min_le_right _ _

/-- C1: the heuristic overall score equals
`round(10 * (0.7 * skill_score + 0.3 * experience_score), 2)` with the
skill score the case-insensitive overlap ratio (1.0/0.0 rule for an
empty requirement) and the experience score the clamped ratio against
the extracted requirement (default 3.0, free pass when nonpositive,
missing resume experience read as 0.0); the result lies in [0, 10]. -/
theorem heuristic_match_overall (resume : ParsedResume) (job : JobProfile) :
    (heuristic_match resume job).1
      = pyRound2 (10 * ((7 : ℚ)/10 * skillScoreSpec resume.skills job.required_skills
          + (3 : ℚ)/10 * expScoreSpec (resume.experience_years.getD 0)
              (_estimate_required_experience job.description)))
    ∧ _skill_overlap resume.skills job.required_skills
        = skillScoreSpec resume.skills job.required_skills
    ∧ _experience_alignment (resume.experience_years.getD 0)
        (_estimate_required_experience job.description)
        = expScoreSpec (resume.experience_years.getD 0)
            (_estimate_required_experience job.description)
    ∧ 0 ≤ (heuristic_match resume job).1
    ∧ (heuristic_match resume job).1 ≤ 10 := by
  have hs := skill_overlap_eq_spec resume.skills job.required_skills
  have he := experience_alignment_eq_spec (resume.experience_years.getD 0)
    (_estimate_required_experience job.description)
  have hfst : (heuristic_match resume job).1
      = pyRound2 (((7 : ℚ)/10 * _skill_overlap resume.skills job.required_skills
          + (3 : ℚ)/10 * _experience_alignment (resume.experience_years.getD 0)
              (_estimate_required_experience job.description)) * 10) := rfl
  have hform : (heuristic_match resume job).1
      = pyRound2 (10 * ((7 : ℚ)/10 * skillScoreSpec resume.skills job.required_skills
          + (3 : ℚ)/10 * expScoreSpec (resume.experience_years.getD 0)
              (_estimate_required_experience job.description))) := by
    rw [hfst, hs, he]
    congr 1
    ring
  have hsb := skillScoreSpec_bounds resume.skills job.required_skills
  have heb := expScoreSpec_bounds (resume.experience_years.getD 0)
    (_estimate_required_experience job.description)
  have hraw0 : 0 ≤ 10 * ((7 : ℚ)/10 * skillScoreSpec resume.skills job.required_skills
      + (3 : ℚ)/10 * expScoreSpec (resume.experience_years.getD 0)
          (_estimate_required_experience job.description)) := by nlinarith [hsb.1, heb.1]
  have hraw1 : 10 * ((7 : ℚ)/10 * skillScoreSpec resume.skills job.required_skills
      + (3 : ℚ)/10 * expScoreSpec (resume.experience_years.getD 0)
          (_estimate_required_experience job.description)) ≤ 10 := by
    nlinarith [hsb.2, heb.2]
  have hb := pyRound2_bounds hraw0 hraw1
  exact ⟨hform, hs, he, by rw [hform]; exact hb.1, by rw [hform]; exact hb.2⟩

end ResumeApp
